import Mathlib

/-!
Verification of the Brand repository's logic core: the JSON invoice
scanner/merger (`JsonFileService.scanJsonItems`), the edited-item
persistence (`saveEditedItem`, `loadAllEditedItems`, `resetAllSavedItems`),
and the defensive SQLite accessor (`DatabaseService.getRecords`,
`searchRecordsByName`, `getTotalRecordCount`).

The TypeScript sources are embedded shallowly: JavaScript numbers carried by
the data become `Int`, JS `Map` objects become association lists that keep
insertion order (as ES2015 maps do), the filesystem directories become lists
of name/content pairs, and the fallible SQLite calls become total functions
parameterised by flags saying which query strategy succeeds.
-/

namespace Brand

/-- One register line of an invoice document
(`MainRegisterItem` in `src/services/JsonFileService.ts`). -/
structure MainRegisterItem where
  name : String
  brand : String
  totalSpace : Int
  image : Option String := none
  flag : Option Int := none
  currentAmount : Option Int := none
deriving DecidableEq, Repr

/-- The `editStatus` metadata stamped onto saved/exported items.
A JS object spread of `undefined` leaves `exported` undefined, which is
falsy; we model that as `false`. -/
structure EditStatus where
  saved : Bool
  exported : Bool
  lastSaved : Option String := none
  lastExported : Option String := none
  exportPath : Option String := none
deriving DecidableEq, Repr

/-- An invoice document (`JsonItem` in `src/services/JsonFileService.ts`). -/
structure JsonItem where
  id : Int
  fullInvoiceName : String
  objCompany : String
  censoredDt : String
  updatedDt : Option String := none
  mainRegisters : List MainRegisterItem
  editStatus : Option EditStatus := none
deriving DecidableEq, Repr

/-- Scan filters (`SearchOptions` in `src/services/JsonFileService.ts`). -/
structure SearchOptions where
  idFilter : Option Int := none
  companyFilter : Option String := none
deriving DecidableEq, Repr

/-- JS `String.prototype.toLowerCase` on the character list (ASCII model). -/
def jsToLower (s : String) : String :=
  ⟨s.data.map Char.toLower⟩

/-- Substring test on character lists, modelling JS `String.prototype.includes`. -/
def listIncl (sub : List Char) : List Char → Bool
  | [] => sub.isEmpty
  | c :: cs => sub.isPrefixOf (c :: cs) || listIncl sub cs

/-- JS `s.includes(sub)`. -/
def jsIncludes (s sub : String) : Bool :=
  listIncl sub.data s.data

/-- Split a character list at `'-'` separators. -/
def splitDash : List Char → List (List Char)
  | [] => [[]]
  | c :: cs =>
    if c = '-' then [] :: splitDash cs
    else
      match splitDash cs with
      | [] => [[c]]
      | h :: t => (c :: h) :: t

/-- Value of a digit string; `none` if any character is not a digit. -/
def digitsVal (l : List Char) : Option Nat :=
  l.foldl
    (fun acc c =>
      match acc with
      | none => none
      | some n => if c.isDigit then some (n * 10 + (c.toNat - 48)) else none)
    (some 0)

/-- Models the JS `new Date(string)` time value used by `scanJsonItems`
(lines 153-159 of `JsonFileService.ts`), restricted to the ISO
`YYYY-MM-DD` strings the invoice files carry.  The returned value is a
strictly monotone encoding of the calendar date (so only the order matters,
as in the source, which only compares the two `Date` objects).  Any other
string yields `none`, modelling an Invalid Date whose NaN time value makes
every `>` comparison false. -/
def parseDateVal (s : String) : Option Int :=
  match splitDash s.data with
  | [y, m, d] =>
    match digitsVal y, digitsVal m, digitsVal d with
    | some yn, some mn, some dn =>
      if y.length = 4 ∧ m.length = 2 ∧ d.length = 2 ∧
          1 ≤ mn ∧ mn ≤ 12 ∧ 1 ≤ dn ∧ dn ≤ 31 then
        some (((yn * 12 + (mn - 1)) * 31 + (dn - 1) : Nat) : Int)
      else none
    | _, _, _ => none
  | _ => none

/-- Effective timestamp of an item: `item.updatedDt ? new Date(item.updatedDt)
: new Date(item.censoredDt)` — a present but empty `updatedDt` is falsy in JS,
so it falls back to `censoredDt`. -/
def effTime (it : JsonItem) : Option Int :=
  match it.updatedDt with
  | some u => if u = "" then parseDateVal it.censoredDt else parseDateVal u
  | none => parseDateVal it.censoredDt

/-- `newDate > existingDate` on JS `Date` objects: an Invalid Date (NaN)
compares false on either side. -/
def dateGt (a b : Option Int) : Bool :=
  match a, b with
  | some x, some y => x > y
  | _, _ => false

/-- Lookup in the insertion-ordered item map (`itemsMap.get(i)`). -/
def mapGet (m : List JsonItem) (i : Int) : Option JsonItem :=
  m.find? (fun x => x.id == i)

/-- `itemsMap.set(item.id, item)`: replaces in place if the key is present
(ES maps keep the original insertion position), else appends. -/
def mapSet (m : List JsonItem) (it : JsonItem) : List JsonItem :=
  match m with
  | [] => [it]
  | x :: xs => if x.id = it.id then it :: xs else x :: mapSet xs it

/-- The per-item filter guard of `scanJsonItems` (lines 134-146):
an item is skipped when an `idFilter` is set and differs, or when a truthy
`companyFilter` is set and the company is falsy or does not contain it
case-insensitively. -/
def passesFilters (o : SearchOptions) (it : JsonItem) : Bool :=
  (match o.idFilter with
   | some f => it.id == f
   | none => true) &&
  (match o.companyFilter with
   | some c =>
     if c = "" then true
     else it.objCompany != "" && jsIncludes (jsToLower it.objCompany) (jsToLower c)
   | none => true)

/-- Body of the `items.forEach` callback of `scanJsonItems` (lines 132-169):
filter, then merge into the accumulated map, replacing an existing entry for
the same id only when the new item's effective timestamp is strictly later. -/
def scanStep (o : SearchOptions) (m : List JsonItem) (it : JsonItem) : List JsonItem :=
  if passesFilters o it then
    match mapGet m it.id with
    | some existing => if dateGt (effTime it) (effTime existing) then mapSet m it else m
    | none => mapSet m it
  else m

/-- The two nested loops of `scanJsonItems` (over files, then items),
starting from the empty map. -/
def scanFiles (o : SearchOptions) (files : List (List JsonItem)) : List JsonItem :=
  files.foldl (fun m items => items.foldl (scanStep o) m) []

/-- `Array.from(itemsMap.values()).sort((a, b) => a.id - b.id)`: a stable
sort ascending by id (the map's keys are pairwise distinct, so any
comparison sort computes the same list). -/
def sortById (l : List JsonItem) : List JsonItem :=
  l.insertionSort (fun a b => a.id ≤ b.id)

/-- `JsonFileService.scanJsonItems`: each element of `files` is the parsed
content of one JSON file, in enumeration order (a file that fails to parse
contributes `[]`, as `readJsonFile` returns `[]` on error). -/
def scanJsonItems (o : SearchOptions) (files : List (List JsonItem)) : List JsonItem :=
  sortById (scanFiles o files)

/-- `countTotalMainRegisters` (the registers list is total in the model,
so the non-array guard of line 191 always takes the array branch). -/
def countTotalMainRegisters (items : List JsonItem) : Nat :=
  items.foldl (fun total it => total + it.mainRegisters.length) 0

/-! ## DatabaseService (`src/services/DatabaseService.ts`)

A SQLite row, with each column nullable.  The service is modelled over the
resolved table's full row list; each fallible `executeSql` strategy is
represented by a flag saying whether that query throws. -/

/-- A raw row of the resolved table; `none` models SQL NULL. -/
structure Row where
  id : Option Int := none
  name : Option String := none
  image : Option String := none
  origin : Option String := none
  regNum : Option String := none
  regDate : Option String := none
deriving DecidableEq, Repr

/-- A record as returned to the UI (`Record` interface); the processing
loops always populate every field. -/
structure Record where
  id : Int
  name : String
  image : String
  origin : String
  regNum : String
  regDate : String
deriving DecidableEq, Repr

/-- `QueryResult` interface. -/
structure QueryResult where
  records : List Record
  totalCount : Nat
  totalPages : Nat
  currentPage : Nat
deriving DecidableEq, Repr

/-- Which of the fallible SQLite calls succeed: the direct unquoted query,
the quoted-identifier retry, the unbounded simple query, and the COUNT
query. -/
structure DbFlags where
  direct : Bool
  quoted : Bool
  simple : Bool
  countOk : Bool
deriving DecidableEq, Repr

/-- JS `row.f || d` for a numeric column: NULL and `0` are falsy. -/
def jsNumOr (v : Option Int) (d : Int) : Int :=
  match v with
  | some x => if x = 0 then d else x
  | none => d

/-- JS `row.f || d` for a text column: NULL and `""` are falsy. -/
def jsStrOr (v : Option String) (d : String) : String :=
  match v with
  | some s => if s = "" then d else s
  | none => d

/-- One iteration of the row-processing loop (`getRecords` lines 479-489,
`searchRecordsByName` lines 636-646): every field is defaulted when falsy,
the id falling back to the 1-based position `i + 1`. -/
def normalizeRow (placeholder : String) (i : Nat) (row : Row) : Record :=
  { id := jsNumOr row.id ((i : Int) + 1)
    name := jsStrOr row.name (placeholder ++ toString (i + 1))
    image := jsStrOr row.image ""
    origin := jsStrOr row.origin ""
    regNum := jsStrOr row.regNum ""
    regDate := jsStrOr row.regDate "" }

/-- The `for (let i = 0; i < len; i++) records.push(...)` loop, carrying the
running index. -/
def normalizeRows (placeholder : String) (i : Nat) : List Row → List Record
  | [] => []
  | r :: rs => normalizeRow placeholder i r :: normalizeRows placeholder (i + 1) rs

/-- Lexicographic comparison of character lists by codepoint, modelling
SQLite's BINARY collation on text values. -/
def charListLe : List Char → List Char → Bool
  | [], _ => true
  | _ :: _, [] => false
  | a :: as, b :: bs =>
    if a.toNat < b.toNat then true
    else if b.toNat < a.toNat then false
    else charListLe as bs

/-- `ORDER BY name`: NULL sorts before any text, text compares under the
BINARY collation. -/
def rowNameLe (a b : Row) : Bool :=
  match a.name, b.name with
  | none, _ => true
  | some _, none => false
  | some x, some y => charListLe x.data y.data

/-- The table as the database returns it under `ORDER BY name`. -/
def sortByName (l : List Row) : List Row :=
  l.insertionSort (fun a b => rowNameLe a b)

/-- `Math.ceil(a / b)` on the non-negative integers involved (`b > 0`). -/
def jsCeilDiv (a b : Nat) : Nat :=
  (a + b - 1) / b

/-- `LIMIT pageSize OFFSET offset` applied by the database to the sorted
table. -/
def pagedQueryRows (table : List Row) (pageSize offset : Nat) : List Row :=
  ((sortByName table).drop offset).take pageSize

/-- The in-memory pagination of the last-resort fallback (lines 440-448 and
592-600): clamp the offset and end index to the unsorted full result set and
slice. -/
def clampSlice (rows : List Row) (pageSize offset : Nat) : List Row :=
  let clamped := min offset rows.length
  let endIdx := min (clamped + pageSize) rows.length
  (rows.drop clamped).take (endIdx - clamped)

/-- The query fallback ladder shared by `getRecords` and
`searchRecordsByName`: direct unquoted query, then quoted identifier (the
same query against the same table), then the unbounded query paginated in
memory; `none` when every strategy throws. -/
def fetchRows (fl : DbFlags) (table : List Row) (pageSize offset : Nat) : Option (List Row) :=
  if fl.direct then some (pagedQueryRows table pageSize offset)
  else if fl.quoted then some (pagedQueryRows table pageSize offset)
  else if fl.simple then some (clampSlice table pageSize offset)
  else none

/-- The well-formed empty result returned on total failure. -/
def emptyResult (page : Nat) : QueryResult :=
  { records := [], totalCount := 0, totalPages := 0, currentPage := page }

/-- `DatabaseService.getTotalRecordCount`: the cached value when positive,
else the COUNT query, degraded to `0` when it (or the table check) fails. -/
def getTotalRecordCount (countOk : Bool) (cache : Nat) (table : List Row) : Nat :=
  if cache > 0 then cache else if countOk then table.length else 0

/-- `DatabaseService.getRecords` over the resolved table. -/
def getRecords (fl : DbFlags) (cache : Nat) (table : List Row) (page pageSize : Nat) :
    QueryResult :=
  let offset := (page - 1) * pageSize
  match fetchRows fl table pageSize offset with
  | none => emptyResult page
  | some rows =>
    let totalCount := getTotalRecordCount fl.countOk cache table
    { records := normalizeRows "Record " 0 rows
      totalCount := totalCount
      totalPages := jsCeilDiv totalCount pageSize
      currentPage := page }

/-- `WHERE name LIKE '%text%'` (SQLite LIKE is ASCII case-insensitive);
a NULL name never matches. -/
def likeMatches (searchText : String) (row : Row) : Bool :=
  match row.name with
  | some n => jsIncludes (jsToLower n) (jsToLower searchText)
  | none => false

/-- `DatabaseService.searchRecordsByName`: the table-existence precheck
(lines 527-545) returns an empty result when the check succeeds and reports
the table missing; then the same fallback ladder over the matching rows, the
COUNT query falling back to the fetched page's length on failure. -/
def searchRecordsByName (fl : DbFlags) (tableCheckOk tableExists : Bool) (table : List Row)
    (searchText : String) (page pageSize : Nat) : QueryResult :=
  let offset := (page - 1) * pageSize
  if tableCheckOk && !tableExists then emptyResult page
  else
    let matched := table.filter (likeMatches searchText)
    match fetchRows fl matched pageSize offset with
    | none => emptyResult page
    | some rows =>
      let totalCount := if fl.countOk then matched.length else rows.length
      { records := normalizeRows "Result " 0 rows
        totalCount := totalCount
        totalPages := jsCeilDiv totalCount pageSize
        currentPage := page }

/-! ## Edited-item persistence (`JsonFileService`, lines 227-411)

The `edited_items` directory is a list of filename/parsed-content pairs;
`none` models an absent directory.  JSON serialisation round-trips exactly,
so a written file's parsed content is the written item. -/

/-- JS `s.endsWith(suffix)`. -/
def jsEndsWith (s suffix : String) : Bool :=
  suffix.data.reverse.isPrefixOf s.data.reverse

/-- `item_${id}.json`, the per-identifier filename used by
`saveEditedItem` and `deleteSavedItem`. -/
def savedFileName (id : Int) : String :=
  "item_" ++ toString id ++ ".json"

/-- The `editStatus` object written by `saveEditedItem` (lines 240-247):
spread of the prior status (spreading `undefined` contributes nothing, so a
missing prior status leaves `exported` undefined, i.e. falsy), then
`saved: true` and a fresh `lastSaved`. -/
def stampSaved (st : Option EditStatus) (now : String) : EditStatus :=
  { saved := true
    exported := match st with | some s => s.exported | none => false
    lastSaved := some now
    lastExported := match st with | some s => s.lastExported | none => none
    exportPath := match st with | some s => s.exportPath | none => none }

/-- `RNFS.writeFile`: overwrite the entry with this filename, or create it. -/
def fsWrite (store : List (String × JsonItem)) (name : String) (v : JsonItem) :
    List (String × JsonItem) :=
  match store with
  | [] => [(name, v)]
  | (n, c) :: rest => if n = name then (name, v) :: rest else (n, c) :: fsWrite rest name v

/-- Read a file of the store by name. -/
def fsGet (store : List (String × JsonItem)) (name : String) : Option JsonItem :=
  (store.find? (fun p => p.1 == name)).map (·.2)

/-- `JsonFileService.saveEditedItem`: stamp the edit status and write the
item to `item_${id}.json`, returning the new store and the updated item. -/
def saveEditedItem (store : List (String × JsonItem)) (item : JsonItem) (now : String) :
    List (String × JsonItem) × JsonItem :=
  let updatedItem : JsonItem := { item with editStatus := some (stampSaved item.editStatus now) }
  (fsWrite store (savedFileName item.id) updatedItem, updatedItem)

/-- `itemsMap.set(k, v)` for the map returned by `loadAllEditedItems`. -/
def amapSet (m : List (Int × JsonItem)) (k : Int) (v : JsonItem) : List (Int × JsonItem) :=
  match m with
  | [] => [(k, v)]
  | (k0, v0) :: rest => if k0 = k then (k, v) :: rest else (k0, v0) :: amapSet rest k v

/-- Lookup in the returned map. -/
def amapGet (m : List (Int × JsonItem)) (k : Int) : Option JsonItem :=
  (m.find? (fun p => p.1 == k)).map (·.2)

/-- One file of the `loadAllEditedItems` loop (lines 320-331): the parsed
item enters the map only when `item && item.id` is truthy, i.e. when its id
is nonzero. -/
def loadStep (m : List (Int × JsonItem)) (f : String × JsonItem) : List (Int × JsonItem) :=
  if f.2.id ≠ 0 then amapSet m f.2.id f.2 else m

/-- `JsonFileService.loadAllEditedItems`: an absent directory yields the
empty map; otherwise every file whose lower-cased name ends in `.json` is
read in directory order into the map. -/
def loadAllEditedItems (dir : Option (List (String × JsonItem))) : List (Int × JsonItem) :=
  match dir with
  | none => []
  | some files =>
    (files.filter (fun f => jsEndsWith (jsToLower f.1) ".json")).foldl loadStep []

/-- `JsonFileService.resetAllSavedItems`: an absent directory is a no-op
success; otherwise every file whose name ends in `.json` (case-sensitively,
unlike `loadAllEditedItems`) is unlinked, and the call reports `true`. -/
def resetAllSavedItems (dir : Option (List (String × JsonItem))) :
    Option (List (String × JsonItem)) × Bool :=
  match dir with
  | none => (none, true)
  | some files => (some (files.filter (fun f => !(jsEndsWith f.1 ".json"))), true)

/-! ## Sample data used by the concrete witnesses -/

/-- An invoice document dated only by `censoredDt`. -/
def itA : JsonItem :=
  { id := 1, fullInvoiceName := "A", objCompany := "Acme", censoredDt := "2024-01-01",
    mainRegisters := [{ name := "r1", brand := "b", totalSpace := 1 },
                      { name := "r2", brand := "b", totalSpace := 2 }] }

/-- A twin of `itA` carrying a later `updatedDt` and three registers. -/
def itB : JsonItem :=
  { id := 1, fullInvoiceName := "B", objCompany := "Acme", censoredDt := "2024-01-01",
    updatedDt := some "2024-02-01",
    mainRegisters := [{ name := "r1", brand := "b", totalSpace := 1 },
                      { name := "r2", brand := "b", totalSpace := 2 },
                      { name := "r3", brand := "b", totalSpace := 3 }] }

/-- A copy of `itA` distinguishable only by its invoice name (same id and
timestamps). -/
def itA2 : JsonItem :=
  { itA with fullInvoiceName := "A2" }

/-- A document whose identifier is the falsy `0`. -/
def item0 : JsonItem :=
  { id := 0, fullInvoiceName := "Z", objCompany := "Acme", censoredDt := "2024-01-01",
    mainRegisters := [{ name := "r1", brand := "b", totalSpace := 1, currentAmount := some 7 }] }

/-- A document with identifier `3`, used to exercise the store directory. -/
def item3 : JsonItem :=
  { id := 3, fullInvoiceName := "T", objCompany := "Acme", censoredDt := "2024-01-01",
    mainRegisters := [{ name := "r1", brand := "b", totalSpace := 1, currentAmount := some 5 }] }

/-- A fully populated sample table row. -/
def rowX : Row :=
  { id := some 11, name := some "Alpha", image := some "img", origin := some "EU",
    regNum := some "R1", regDate := some "2023-01-01" }

/-- A sample row with NULL auxiliary columns. -/
def rowY : Row :=
  { id := some 12, name := some "Beta" }

/-- Another sample row. -/
def rowZ : Row :=
  { id := some 13, name := some "Gamma" }

/-- A sample row whose id column is NULL. -/
def rowN : Row :=
  { name := some "x" }

/-- A three-row sample table. -/
def tbl3 : List Row := [rowX, rowY, rowZ]

/-! ## Lemmas about the timestamp comparison -/

theorem dateGt_irrefl (a : Option Int) : dateGt a a = false := by
  cases a <;> simp [dateGt]

theorem dateGt_asymm {a b : Option Int} (h : dateGt a b = true) : dateGt b a = false := by
  cases a <;> cases b <;> simp_all [dateGt] <;> omega

/-! ## Lemmas about the item map -/

theorem mapGet_nil (i : Int) : mapGet [] i = none := rfl

theorem mapGet_cons {x : JsonItem} {xs : List JsonItem} {i : Int} :
    mapGet (x :: xs) i = if x.id = i then some x else mapGet xs i := by
  by_cases h : x.id = i <;> simp [mapGet, List.find?_cons, h]

theorem mapGet_id {m : List JsonItem} {i : Int} {v : JsonItem}
    (h : mapGet m i = some v) : v.id = i := by
  have := List.find?_some h
  simpa using this

theorem mapGet_mem {m : List JsonItem} {i : Int} {v : JsonItem}
    (h : mapGet m i = some v) : v ∈ m :=
  List.mem_of_find?_eq_some h

theorem mapGet_eq_none {m : List JsonItem} {i : Int} :
    mapGet m i = none ↔ ∀ x ∈ m, x.id ≠ i := by
  simp [mapGet, List.find?_eq_none]

theorem mapGet_mapSet (m : List JsonItem) (it : JsonItem) (j : Int) :
    mapGet (mapSet m it) j = if it.id = j then some it else mapGet m j := by
  induction m with
  | nil => by_cases h : it.id = j <;> simp [mapSet, mapGet_cons, mapGet_nil, h]
  | cons x xs ih =>
    unfold mapSet
    by_cases hx : x.id = it.id
    · rw [if_pos hx, mapGet_cons, mapGet_cons]
      by_cases hj : it.id = j
      · simp [hj]
      · have : ¬ x.id = j := by rw [hx]; exact hj
        simp [hj, this]
    · rw [if_neg hx, mapGet_cons, mapGet_cons, ih]
      by_cases hj : it.id = j
      · have : ¬ x.id = j := by rw [← hj]; exact hx
        simp [hj, this]
      · simp [hj]

theorem mem_mapSet {m : List JsonItem} {it y : JsonItem}
    (h : y ∈ mapSet m it) : y ∈ m ∨ y = it := by
  induction m with
  | nil => simpa [mapSet] using h
  | cons x xs ih =>
    unfold mapSet at h
    by_cases hx : x.id = it.id
    · rw [if_pos hx] at h
      rcases List.mem_cons.mp h with rfl | h
      · exact Or.inr rfl
      · exact Or.inl (List.mem_cons_of_mem _ h)
    · rw [if_neg hx] at h
      rcases List.mem_cons.mp h with rfl | h
      · exact Or.inl (List.mem_cons_self _ _)
      · rcases ih h with h | h
        · exact Or.inl (List.mem_cons_of_mem _ h)
        · exact Or.inr h

theorem mapSet_map_id_of_get_some {m : List JsonItem} {it v : JsonItem}
    (h : mapGet m it.id = some v) :
    (mapSet m it).map (·.id) = m.map (·.id) := by
  induction m with
  | nil => simp [mapGet_nil] at h
  | cons x xs ih =>
    unfold mapSet
    by_cases hx : x.id = it.id
    · rw [if_pos hx]; simp [hx]
    · rw [if_neg hx]
      rw [mapGet_cons, if_neg hx] at h
      simp [ih h]

theorem mapSet_map_id_of_get_none {m : List JsonItem} {it : JsonItem}
    (h : mapGet m it.id = none) :
    (mapSet m it).map (·.id) = m.map (·.id) ++ [it.id] := by
  induction m with
  | nil => simp [mapSet]
  | cons x xs ih =>
    rw [mapGet_cons] at h
    by_cases hx : x.id = it.id
    · rw [if_pos hx] at h; cases h
    · rw [if_neg hx] at h
      unfold mapSet
      rw [if_neg hx]
      simp [ih h]

/-! ## Lemmas about one merge step -/

theorem scanStep_not_passing {o : SearchOptions} {it : JsonItem} (m : List JsonItem)
    (h : passesFilters o it = false) : scanStep o m it = m := by
  simp [scanStep, h]

theorem scanStep_keep {o : SearchOptions} {m : List JsonItem} {it ex : JsonItem}
    (hex : mapGet m it.id = some ex)
    (hd : dateGt (effTime it) (effTime ex) = false) : scanStep o m it = m := by
  unfold scanStep
  by_cases hp : passesFilters o it <;> simp [hp, hex, hd]

theorem scanStep_get_ne {o : SearchOptions} {m : List JsonItem} {it : JsonItem} {j : Int}
    (h : it.id ≠ j) : mapGet (scanStep o m it) j = mapGet m j := by
  unfold scanStep
  by_cases hp : passesFilters o it
  · cases hex : mapGet m it.id with
    | none => simp [hp, hex, mapGet_mapSet, h]
    | some ex =>
      by_cases hd : dateGt (effTime it) (effTime ex) <;>
        simp [hp, hex, hd, mapGet_mapSet, h]
  · simp [hp]

theorem scanStep_get_insert {o : SearchOptions} {m : List JsonItem} {it : JsonItem}
    (hp : passesFilters o it = true) (hex : mapGet m it.id = none) :
    mapGet (scanStep o m it) it.id = some it := by
  simp [scanStep, hp, hex, mapGet_mapSet]

theorem scanStep_get_replace {o : SearchOptions} {m : List JsonItem} {it ex : JsonItem}
    (hp : passesFilters o it = true) (hex : mapGet m it.id = some ex)
    (hd : dateGt (effTime it) (effTime ex) = true) :
    mapGet (scanStep o m it) it.id = some it := by
  simp [scanStep, hp, hex, hd, mapGet_mapSet]

theorem mem_scanStep {o : SearchOptions} {m : List JsonItem} {it y : JsonItem}
    (h : y ∈ scanStep o m it) : y ∈ m ∨ y = it := by
  by_cases hp : passesFilters o it
  · cases hex : mapGet m it.id with
    | none =>
      simp only [scanStep, hp, if_true, hex] at h
      exact mem_mapSet h
    | some ex =>
      by_cases hd : dateGt (effTime it) (effTime ex) = true
      · simp only [scanStep, hp, if_true, hex, hd] at h
        exact mem_mapSet h
      · simp only [scanStep, hp, if_true, hex, hd, if_false] at h
        exact Or.inl h
  · simp only [scanStep, hp] at h
    exact Or.inl h

theorem scanStep_map_id_nodup {o : SearchOptions} {m : List JsonItem} (it : JsonItem)
    (h : (m.map (·.id)).Nodup) : ((scanStep o m it).map (·.id)).Nodup := by
  by_cases hp : passesFilters o it
  · cases hex : mapGet m it.id with
    | none =>
      simp only [scanStep, hp, if_true, hex]
      rw [mapSet_map_id_of_get_none hex]
      refine List.Nodup.append h (List.nodup_singleton _) ?_
      intro a ha ha'
      rcases List.mem_map.mp ha with ⟨x, hx, rfl⟩
      have hne := mapGet_eq_none.mp hex x hx
      simp at ha'
      exact hne ha'
    | some ex =>
      by_cases hd : dateGt (effTime it) (effTime ex) = true
      · simp only [scanStep, hp, if_true, hex, hd]
        rw [mapSet_map_id_of_get_some hex]
        exact h
      · simp only [scanStep, hp, if_true, hex, hd, if_false]
        exact h
  · simp only [scanStep, hp]
    exact h

/-! ## Lemmas about the accumulation folds -/

theorem foldl_scanStep_get_ne (o : SearchOptions) (l : List JsonItem) (acc : List JsonItem)
    (j : Int) (h : ∀ x ∈ l, x.id ≠ j) :
    mapGet (l.foldl (scanStep o) acc) j = mapGet acc j := by
  induction l generalizing acc with
  | nil => rfl
  | cons x xs ih =>
    rw [List.foldl_cons, ih _ (fun y hy => h y (List.mem_cons_of_mem _ hy)),
      scanStep_get_ne (h x (List.mem_cons_self _ _))]

theorem foldl_scanStep_stable (o : SearchOptions) (l : List JsonItem) (acc : List JsonItem)
    (j : Int) (m : JsonItem) (hacc : mapGet acc j = some m)
    (h : ∀ x ∈ l, x.id = j → dateGt (effTime x) (effTime m) = false) :
    mapGet (l.foldl (scanStep o) acc) j = some m := by
  induction l generalizing acc with
  | nil => exact hacc
  | cons x xs ih =>
    rw [List.foldl_cons]
    refine ih _ ?_ (fun y hy => h y (List.mem_cons_of_mem _ hy))
    by_cases hx : x.id = j
    · have hget : mapGet acc x.id = some m := by rw [hx]; exact hacc
      rw [scanStep_keep hget (h x (List.mem_cons_self _ _) hx)]
      exact hacc
    · rw [scanStep_get_ne hx]; exact hacc

theorem foldl_scanStep_latest (o : SearchOptions) (m : JsonItem)
    (hp : passesFilters o m = true) :
    ∀ (l acc : List JsonItem),
      (∀ v, mapGet acc m.id = some v → v = m ∨ dateGt (effTime m) (effTime v) = true) →
      (∀ x ∈ l, x.id = m.id → x = m ∨ dateGt (effTime m) (effTime x) = true) →
      m ∈ l → mapGet (l.foldl (scanStep o) acc) m.id = some m := by
  intro l
  induction l with
  | nil => intro acc _ _ hm; cases hm
  | cons x xs ih =>
    intro acc hOK hdom hm
    rw [List.foldl_cons]
    rcases List.mem_cons.mp hm with rfl | hmem
    · have hstep : mapGet (scanStep o acc m) m.id = some m := by
        cases hex : mapGet acc m.id with
        | none => exact scanStep_get_insert hp hex
        | some ex =>
          rcases hOK ex hex with rfl | hgt
          · rw [scanStep_keep hex (dateGt_irrefl _)]; exact hex
          · exact scanStep_get_replace hp hex hgt
      refine foldl_scanStep_stable o xs _ _ m hstep ?_
      intro y hy hyid
      rcases hdom y (List.mem_cons_of_mem _ hy) hyid with rfl | hgt
      · exact dateGt_irrefl _
      · exact dateGt_asymm hgt
    · refine ih _ ?_ (fun y hy => hdom y (List.mem_cons_of_mem _ hy)) hmem
      intro v hv
      by_cases hpx : passesFilters o x = true
      · by_cases hx : x.id = m.id
        · cases hex : mapGet acc x.id with
          | none =>
            have hg := scanStep_get_insert (o := o) (m := acc) hpx hex
            rw [hx] at hg
            rw [hg] at hv
            cases hv
            exact hdom x (List.mem_cons_self _ _) hx
          | some ex =>
            by_cases hd : dateGt (effTime x) (effTime ex) = true
            · have hg := scanStep_get_replace (o := o) hpx hex hd
              rw [hx] at hg
              rw [hg] at hv
              cases hv
              exact hdom x (List.mem_cons_self _ _) hx
            · rw [scanStep_keep hex (Bool.not_eq_true _ ▸ hd)] at hv
              exact hOK v hv
        · rw [scanStep_get_ne hx] at hv
          exact hOK v hv
      · rw [scanStep_not_passing acc (Bool.not_eq_true _ ▸ hpx)] at hv
        exact hOK v hv

theorem mem_foldl_scanStep (o : SearchOptions) (l : List JsonItem) (acc : List JsonItem)
    (y : JsonItem) (h : y ∈ l.foldl (scanStep o) acc) : y ∈ acc ∨ y ∈ l := by
  induction l generalizing acc with
  | nil => exact Or.inl h
  | cons x xs ih =>
    rw [List.foldl_cons] at h
    rcases ih _ h with h' | h'
    · rcases mem_scanStep h' with h'' | h''
      · exact Or.inl h''
      · exact Or.inr (h'' ▸ List.mem_cons_self _ _)
    · exact Or.inr (List.mem_cons_of_mem _ h')

theorem foldl_scanStep_map_id_nodup (o : SearchOptions) (l : List JsonItem)
    (acc : List JsonItem) (h : (acc.map (·.id)).Nodup) :
    ((l.foldl (scanStep o) acc).map (·.id)).Nodup := by
  induction l generalizing acc with
  | nil => exact h
  | cons x xs ih => exact ih _ (scanStep_map_id_nodup x h)

theorem mapGet_isSome_scanStep (o : SearchOptions) (acc : List JsonItem) (x : JsonItem)
    (j : Int) (h : (mapGet acc j).isSome) : (mapGet (scanStep o acc x) j).isSome := by
  by_cases hx : x.id = j
  · by_cases hp : passesFilters o x = true
    · cases hex : mapGet acc x.id with
      | none => rw [hx] at hex; rw [hex] at h; cases h
      | some ex =>
        by_cases hd : dateGt (effTime x) (effTime ex) = true
        · have := scanStep_get_replace (o := o) hp hex hd
          rw [hx] at this
          rw [this]
          rfl
        · rw [scanStep_keep hex (Bool.not_eq_true _ ▸ hd)]
          exact h
    · rw [scanStep_not_passing acc (Bool.not_eq_true _ ▸ hp)]
      exact h
  · rw [scanStep_get_ne hx]
    exact h

theorem mapGet_isSome_foldl (o : SearchOptions) (l : List JsonItem) (acc : List JsonItem)
    (j : Int) (h : (mapGet acc j).isSome) :
    (mapGet (l.foldl (scanStep o) acc) j).isSome := by
  induction l generalizing acc with
  | nil => exact h
  | cons x xs ih => exact ih _ (mapGet_isSome_scanStep o acc x j h)

theorem mapGet_isSome_of_mem (o : SearchOptions) (l : List JsonItem) (acc : List JsonItem)
    (x : JsonItem) (hx : x ∈ l) (hp : passesFilters o x = true) :
    (mapGet (l.foldl (scanStep o) acc) x.id).isSome := by
  induction l generalizing acc with
  | nil => cases hx
  | cons y ys ih =>
    rw [List.foldl_cons]
    rcases List.mem_cons.mp hx with rfl | hmem
    · refine mapGet_isSome_foldl o ys _ _ ?_
      cases hex : mapGet acc x.id with
      | none => rw [scanStep_get_insert hp hex]; rfl
      | some ex =>
        by_cases hd : dateGt (effTime x) (effTime ex) = true
        · rw [scanStep_get_replace hp hex hd]; rfl
        · rw [scanStep_keep hex (Bool.not_eq_true _ ▸ hd), hex]; rfl
    · exact ih _ hmem

theorem mapGet_of_mem_nodup {m : List JsonItem} {x : JsonItem}
    (h : (m.map (·.id)).Nodup) (hx : x ∈ m) : mapGet m x.id = some x := by
  induction m with
  | nil => cases hx
  | cons y ys ih =>
    rcases List.mem_cons.mp hx with rfl | hmem
    · rw [mapGet_cons, if_pos rfl]
    · rw [mapGet_cons]
      have h' : (∀ z ∈ ys, ¬ z.id = y.id) ∧ ((ys.map (·.id)).Nodup) := by
        simpa using h
      by_cases hy : y.id = x.id
      · exact absurd hy.symm (h'.1 x hmem)
      · rw [if_neg hy]
        exact ih h'.2 hmem

/-! ## Lemmas connecting `scanFiles` and `scanJsonItems` to the flat stream -/

theorem foldl_foldl_flatten (o : SearchOptions) (files : List (List JsonItem))
    (acc : List JsonItem) :
    files.foldl (fun m items => items.foldl (scanStep o) m) acc
      = files.flatten.foldl (scanStep o) acc := by
  induction files generalizing acc with
  | nil => rfl
  | cons l ls ih =>
    rw [List.foldl_cons, List.flatten_cons, List.foldl_append, ih]

theorem scanFiles_eq_foldl (o : SearchOptions) (files : List (List JsonItem)) :
    scanFiles o files = files.flatten.foldl (scanStep o) [] :=
  foldl_foldl_flatten o files []

theorem mem_sortById {l : List JsonItem} {x : JsonItem} : x ∈ sortById l ↔ x ∈ l :=
  List.mem_insertionSort _

theorem sortById_map_id_nodup {l : List JsonItem} (h : (l.map (·.id)).Nodup) :
    ((sortById l).map (·.id)).Nodup :=
  (((List.perm_insertionSort _ l).map (·.id)).nodup_iff).mpr h

theorem passesFilters_default (it : JsonItem) : passesFilters {} it = true := rfl

theorem scanFiles_map_id_nodup (o : SearchOptions) (files : List (List JsonItem)) :
    ((scanFiles o files).map (·.id)).Nodup := by
  rw [scanFiles_eq_foldl]
  exact foldl_scanStep_map_id_nodup o files.flatten [] (by simp)

theorem scan_out_unique {o : SearchOptions} {files : List (List JsonItem)} {m : JsonItem}
    (hget : mapGet (scanFiles o files) m.id = some m) :
    m ∈ scanJsonItems o files ∧ ∀ y ∈ scanJsonItems o files, y.id = m.id → y = m := by
  unfold scanJsonItems
  refine ⟨mem_sortById.mpr (mapGet_mem hget), ?_⟩
  intro y hy hid
  have hy' := mem_sortById.mp hy
  have hgy := mapGet_of_mem_nodup (scanFiles_map_id_nodup o files) hy'
  rw [hid, hget] at hgy
  exact (Option.some.inj hgy).symm

theorem scanStep_default_eq (o : SearchOptions) (acc : List JsonItem) (x : JsonItem)
    (hp : passesFilters o x = true) : scanStep o acc x = scanStep {} acc x := by
  unfold scanStep
  rw [hp, passesFilters_default]

theorem foldl_scanStep_filter (o : SearchOptions) (l : List JsonItem) (acc : List JsonItem) :
    l.foldl (scanStep o) acc = (l.filter (passesFilters o)).foldl (scanStep {}) acc := by
  induction l generalizing acc with
  | nil => rfl
  | cons x xs ih =>
    rw [List.foldl_cons]
    by_cases hp : passesFilters o x = true
    · rw [List.filter_cons_of_pos hp, List.foldl_cons, scanStep_default_eq o acc x hp, ih]
    · rw [scanStep_not_passing acc (Bool.not_eq_true _ ▸ hp),
        List.filter_cons_of_neg (by simpa using hp), ih]

theorem flatten_map_filter (p : JsonItem → Bool) (files : List (List JsonItem)) :
    (files.map (List.filter p)).flatten = files.flatten.filter p := by
  induction files with
  | nil => rfl
  | cons l ls ih =>
    rw [List.map_cons, List.flatten_cons, List.flatten_cons, List.filter_append, ih]

/-! ## The claims about the scanner/merger -/

/-- C1: over every collection of invoice files, `scanJsonItems` (unfiltered)
returns exactly one document per identifier — its output carries pairwise
distinct ids, and an identifier appears in the output exactly when some
scanned document carries it — and for a document `m` whose effective
timestamp is strictly later than that of every other document sharing its
identifier, the returned document for that identifier is `m`. -/
theorem scanJsonItems_dedups_and_keeps_latest (files : List (List JsonItem)) (m : JsonItem)
    (hm : m ∈ files.flatten)
    (hlatest : ∀ x ∈ files.flatten, x.id = m.id → x ≠ m →
      dateGt (effTime m) (effTime x) = true) :
    ((scanJsonItems {} files).map (·.id)).Nodup ∧
    (∀ i : Int, (∃ x ∈ files.flatten, x.id = i) ↔ (∃ y ∈ scanJsonItems {} files, y.id = i)) ∧
    m ∈ scanJsonItems {} files ∧
    (∀ y ∈ scanJsonItems {} files, y.id = m.id → y = m) := by
  have hget : mapGet (scanFiles {} files) m.id = some m := by
    rw [scanFiles_eq_foldl]
    refine foldl_scanStep_latest {} m (passesFilters_default m) files.flatten []
      (fun v hv => by rw [mapGet_nil] at hv; cases hv) ?_ hm
    intro x hx hid
    by_cases hxm : x = m
    · exact Or.inl hxm
    · exact Or.inr (hlatest x hx hid hxm)
  have huniq := scan_out_unique hget
  refine ⟨sortById_map_id_nodup (scanFiles_map_id_nodup {} files), ?_, huniq.1, huniq.2⟩
  intro i
  constructor
  · rintro ⟨x, hx, rfl⟩
    have hs := mapGet_isSome_of_mem {} files.flatten [] x hx (passesFilters_default x)
    rw [← scanFiles_eq_foldl] at hs
    cases hv : mapGet (scanFiles {} files) x.id with
    | none => rw [hv] at hs; cases hs
    | some v =>
      exact ⟨v, (mem_sortById (l := scanFiles {} files)).mpr (mapGet_mem hv), mapGet_id hv⟩
  · rintro ⟨y, hy, rfl⟩
    have hy' := mem_sortById.mp hy
    rw [scanFiles_eq_foldl] at hy'
    rcases mem_foldl_scanStep {} files.flatten [] y hy' with h | h
    · cases h
    · exact ⟨y, h, rfl⟩

/-- Witness for C1: scanning the two sample files yields exactly the
later-updated document `itB` for identifier 1. -/
theorem scanJsonItems_dedups_and_keeps_latest_witness :
    itB ∈ scanJsonItems {} [[itA], [itB]] ∧
    ∀ y ∈ scanJsonItems {} [[itA], [itB]], y.id = itB.id → y = itB :=
  have h := scanJsonItems_dedups_and_keeps_latest [[itA], [itB]] itB (by decide) (by decide)
  ⟨h.2.2.1, h.2.2.2⟩

/-- C2: when every document sharing an identifier with the first-encountered
document `m` has an equal effective timestamp, `scanJsonItems` keeps `m`;
and one merge step replaces an accumulated entry exactly when the new item's
effective timestamp is strictly later (otherwise the map is unchanged). -/
theorem scanJsonItems_tie_keeps_first (files : List (List JsonItem)) (m : JsonItem)
    (pre post : List JsonItem)
    (hsplit : files.flatten = pre ++ m :: post)
    (hpre : ∀ x ∈ pre, x.id ≠ m.id)
    (htie : ∀ x ∈ post, x.id = m.id → effTime x = effTime m) :
    (m ∈ scanJsonItems {} files ∧
      ∀ y ∈ scanJsonItems {} files, y.id = m.id → y = m) ∧
    (∀ (o : SearchOptions) (acc : List JsonItem) (x ex : JsonItem),
      mapGet acc x.id = some ex → dateGt (effTime x) (effTime ex) = false →
      scanStep o acc x = acc) ∧
    (∀ (o : SearchOptions) (acc : List JsonItem) (x ex : JsonItem),
      passesFilters o x = true → mapGet acc x.id = some ex →
      dateGt (effTime x) (effTime ex) = true →
      mapGet (scanStep o acc x) x.id = some x) := by
  have hget : mapGet (scanFiles {} files) m.id = some m := by
    rw [scanFiles_eq_foldl, hsplit, List.foldl_append, List.foldl_cons]
    have hpre' : mapGet (pre.foldl (scanStep {}) []) m.id = none := by
      rw [foldl_scanStep_get_ne {} pre [] m.id hpre]
      rfl
    refine foldl_scanStep_stable {} post _ m.id m
      (scanStep_get_insert (passesFilters_default m) hpre') ?_
    intro x hx hxid
    rw [htie x hx hxid]
    exact dateGt_irrefl _
  refine ⟨scan_out_unique hget, ?_, ?_⟩
  · intro o acc x ex hex hd
    exact scanStep_keep hex hd
  · intro o acc x ex hp hex hd
    exact scanStep_get_replace hp hex hd

/-- Witness for C2: a scan of two single-document files with equal effective
timestamps keeps the first-encountered document `itA`, not `itA2`. -/
theorem scanJsonItems_tie_keeps_first_witness :
    itA ∈ scanJsonItems {} [[itA], [itA2]] ∧
    ∀ y ∈ scanJsonItems {} [[itA], [itA2]], y.id = itA.id → y = itA :=
  (scanJsonItems_tie_keeps_first [[itA], [itA2]] itA [] [itA2]
    (by decide) (by decide) (by decide)).1

/-- C6: the filters are applied per item before the merge comparison:
scanning with filters equals the unfiltered scan of the pre-filtered files,
and a filtered-out item leaves the accumulated map untouched (so it can
never displace an accumulated document with its identifier). -/
theorem scanJsonItems_applies_filters_before_merge (o : SearchOptions)
    (files : List (List JsonItem)) :
    scanJsonItems o files
        = scanJsonItems {} (files.map (List.filter (passesFilters o))) ∧
    ∀ (acc : List JsonItem) (x : JsonItem),
      passesFilters o x = false → scanStep o acc x = acc := by
  constructor
  · unfold scanJsonItems
    rw [scanFiles_eq_foldl, scanFiles_eq_foldl, flatten_map_filter,
      foldl_scanStep_filter]
  · intro acc x hp
    exact scanStep_not_passing acc hp

/-- Witness for C6 at a concrete company filter that rejects the sample
documents. -/
theorem scanJsonItems_applies_filters_before_merge_witness :
    scanJsonItems { companyFilter := some "zz" } [[itA], [itB]]
        = scanJsonItems {}
            ([[itA], [itB]].map (List.filter (passesFilters { companyFilter := some "zz" }))) ∧
    scanStep { companyFilter := some "zz" } [] itA = [] :=
  have h := scanJsonItems_applies_filters_before_merge { companyFilter := some "zz" }
    [[itA], [itB]]
  ⟨h.1, h.2 [] itA (by decide)⟩

/-! ## Lemmas about the record accessor -/

theorem normalizeRows_length (ph : String) (i : Nat) (l : List Row) :
    (normalizeRows ph i l).length = l.length := by
  induction l generalizing i with
  | nil => rfl
  | cons r rs ih => simp [normalizeRows, ih]

theorem normalizeRows_getElem? (ph : String) (i : Nat) (l : List Row) (n : Nat) :
    (normalizeRows ph i l)[n]? = l[n]?.map (normalizeRow ph (i + n)) := by
  induction l generalizing i n with
  | nil => simp [normalizeRows]
  | cons r rs ih =>
    cases n with
    | zero => simp [normalizeRows]
    | succ k =>
      have harith : i + 1 + k = i + (k + 1) := by omega
      simp only [normalizeRows, List.getElem?_cons_succ, ih, harith]

theorem pagedQueryRows_length (table : List Row) (pageSize offset : Nat) :
    (pagedQueryRows table pageSize offset).length
      = min pageSize (table.length - offset) := by
  simp [pagedQueryRows, sortByName, List.length_insertionSort]

theorem jsCeilDiv_eq (a b : Nat) (hb : 0 < b) :
    jsCeilDiv a b = a / b + (if a % b = 0 then 0 else 1) := by
  unfold jsCeilDiv
  by_cases hr : a % b = 0
  · rw [if_pos hr, Nat.add_zero]
    have ha : a = b * (a / b) := by
      conv_lhs => rw [← Nat.div_add_mod a b]
      rw [hr, Nat.add_zero]
    conv_lhs => rw [ha]
    rw [Nat.add_sub_assoc hb, Nat.mul_add_div hb]
    have hz : (b - 1) / b = 0 := Nat.div_eq_of_lt (by omega)
    rw [hz, Nat.add_zero]
  · rw [if_neg hr]
    have h1 : 0 < a % b := Nat.pos_of_ne_zero hr
    have h2 : a % b < b := Nat.mod_lt _ hb
    have ha : a + b - 1 = b * (a / b + 1) + (a % b - 1) := by
      have hd := Nat.div_add_mod a b
      rw [Nat.mul_add, Nat.mul_one]
      omega
    rw [ha, Nat.mul_add_div hb]
    have hz : (a % b - 1) / b = 0 := Nat.div_eq_of_lt (by omega)
    rw [hz, Nat.add_zero]

theorem jsCeilDiv_mul_ge (a b : Nat) (hb : 0 < b) : a ≤ jsCeilDiv a b * b := by
  rw [jsCeilDiv_eq a b hb]
  have hdm := Nat.div_add_mod a b
  have hm : a % b < b := Nat.mod_lt _ hb
  by_cases hr : a % b = 0
  · rw [hr, if_pos rfl, Nat.add_zero, Nat.mul_comm]
    omega
  · rw [if_neg hr, Nat.add_mul, Nat.one_mul, Nat.mul_comm]
    omega

/-- C3: under the normal (direct-query, working count) path, `getRecords`
over an `N`-row table returns `min(pageSize, N - (page-1)*pageSize)` records,
reports `totalCount = N` and `totalPages = ceil(N / pageSize)`, and a page
beyond `totalPages` yields an empty `records` array with the totals intact. -/
theorem getRecords_pagination (fl : DbFlags) (cache : Nat) (table : List Row)
    (page pageSize : Nat) (hp : 1 ≤ page) (hs : 0 < pageSize)
    (hdirect : fl.direct = true) (hcount : fl.countOk = true)
    (hcache : cache = table.length ∨ cache = 0) :
    (getRecords fl cache table page pageSize).records.length
        = min pageSize (table.length - (page - 1) * pageSize) ∧
    (getRecords fl cache table page pageSize).totalCount = table.length ∧
    (getRecords fl cache table page pageSize).totalPages
        = table.length / pageSize + (if table.length % pageSize = 0 then 0 else 1) ∧
    ((getRecords fl cache table page pageSize).totalPages < page →
      (getRecords fl cache table page pageSize).records = []) ∧
    (getRecords fl cache table page pageSize).currentPage = page := by
  have htc : getTotalRecordCount fl.countOk cache table = table.length := by
    unfold getTotalRecordCount
    rw [hcount]
    rcases hcache with rfl | rfl
    · split
      · rfl
      · simp
    · simp
  have hfetch : fetchRows fl table pageSize ((page - 1) * pageSize)
      = some (pagedQueryRows table pageSize ((page - 1) * pageSize)) := by
    simp [fetchRows, hdirect]
  have hlen : (getRecords fl cache table page pageSize).records.length
      = min pageSize (table.length - (page - 1) * pageSize) := by
    simp [getRecords, hfetch, normalizeRows_length, pagedQueryRows_length]
  refine ⟨hlen, ?_, ?_, ?_, ?_⟩
  · simp [getRecords, hfetch, htc]
  · simp [getRecords, hfetch, htc, jsCeilDiv_eq table.length pageSize hs]
  · intro hbeyond
    have htp : (getRecords fl cache table page pageSize).totalPages
        = jsCeilDiv table.length pageSize := by
      simp [getRecords, hfetch, htc]
    rw [htp] at hbeyond
    have h1 : jsCeilDiv table.length pageSize ≤ page - 1 := by omega
    have h2 : table.length ≤ (page - 1) * pageSize :=
      le_trans (jsCeilDiv_mul_ge table.length pageSize hs)
        (Nat.mul_le_mul_right pageSize h1)
    have : (getRecords fl cache table page pageSize).records.length = 0 := by
      rw [hlen]
      omega
    exact List.length_eq_zero.mp this
  · simp [getRecords, hfetch]

/-- Witness for C3: page 2 of size 2 over the three-row sample table holds
one record, with three total records over two pages; page 3 is empty. -/
theorem getRecords_pagination_witness :
    (getRecords ⟨true, true, true, true⟩ 0 tbl3 2 2).records.length = 1 ∧
    (getRecords ⟨true, true, true, true⟩ 0 tbl3 2 2).totalCount = 3 ∧
    (getRecords ⟨true, true, true, true⟩ 0 tbl3 2 2).totalPages = 2 ∧
    (getRecords ⟨true, true, true, true⟩ 0 tbl3 3 2).records = [] := by
  have h := getRecords_pagination ⟨true, true, true, true⟩ 0 tbl3 2 2
    (by decide) (by decide) rfl rfl (Or.inr rfl)
  have h3 := getRecords_pagination ⟨true, true, true, true⟩ 0 tbl3 3 2
    (by decide) (by decide) rfl rfl (Or.inr rfl)
  refine ⟨?_, ?_, ?_, ?_⟩
  · rw [h.1]; rfl
  · rw [h.2.1]; rfl
  · rw [h.2.2.1]; rfl
  · refine h3.2.2.2.1 ?_
    rw [h3.2.2.1]; decide

/-- C4 counterexample: the retry ladder does not extend to the count
queries.  With the direct strategy failing but the quoted and unbounded
strategies working (the row fetch succeeds through the quoted retry and
returns 2 records), `getRecords` still reports `totalCount = 0` for the
3-row table, and the search count falls back to the fetched page's length 2
although 3 rows match — a ladder-following count would have returned 3 in
both cases. -/
theorem count_query_no_fallback_ladder_cex :
    (getRecords ⟨false, true, true, false⟩ 0 tbl3 1 2).records.length = 2 ∧
    (getRecords ⟨false, true, true, false⟩ 0 tbl3 1 2).totalCount = 0 ∧
    (getRecords ⟨false, true, true, false⟩ 0 tbl3 1 2).totalPages = 0 ∧
    (searchRecordsByName ⟨false, true, true, false⟩ false false tbl3 "a" 1 2).records.length
        = 2 ∧
    (searchRecordsByName ⟨false, true, true, false⟩ false false tbl3 "a" 1 2).totalCount
        = 2 ∧
    tbl3.length = 3 ∧
    (tbl3.filter (likeMatches "a")).length = 3 := by
  decide

/-- C4 (amended: the ladder is for the row queries only): the row-fetching
reads follow the fallback ladder — a direct or quoted success paginates in
SQL, the last-resort success paginates the unbounded result in memory, and
when every strategy fails a well-formed empty result is returned with
`currentPage` preserved.  The count queries make a single unquoted attempt:
`getTotalRecordCount` answers from a positive cache without querying and
degrades to 0 on failure (independently of the quoted/simple strategies),
and the search count falls back to the fetched page's length on failure.
No accessor propagates a query error. -/
theorem row_query_fallback_ladder_count_single_attempt (fl : DbFlags) (cache : Nat)
    (table : List Row) (text : String) (tco te : Bool) (page pageSize : Nat) :
    (getRecords ⟨false, false, false, fl.countOk⟩ cache table page pageSize
        = emptyResult page) ∧
    ((getRecords fl cache table page pageSize).currentPage = page) ∧
    (fl.direct = true ∨ (fl.direct = false ∧ fl.quoted = true) →
      (getRecords fl cache table page pageSize).records
        = normalizeRows "Record " 0 (pagedQueryRows table pageSize ((page - 1) * pageSize))) ∧
    (fl.direct = false → fl.quoted = false → fl.simple = true →
      (getRecords fl cache table page pageSize).records
        = normalizeRows "Record " 0 (clampSlice table pageSize ((page - 1) * pageSize))) ∧
    (searchRecordsByName ⟨false, false, false, fl.countOk⟩ tco te table text page pageSize
        = emptyResult page) ∧
    ((searchRecordsByName fl tco te table text page pageSize).currentPage = page) ∧
    ((tco = false ∨ te = true) → fl.direct = true ∨ (fl.direct = false ∧ fl.quoted = true) →
      (searchRecordsByName fl tco te table text page pageSize).records
        = normalizeRows "Result " 0
            (pagedQueryRows (table.filter (likeMatches text)) pageSize
              ((page - 1) * pageSize))) ∧
    ((tco = false ∨ te = true) → fl.direct = false → fl.quoted = false → fl.simple = true →
      (searchRecordsByName fl tco te table text page pageSize).records
        = normalizeRows "Result " 0
            (clampSlice (table.filter (likeMatches text)) pageSize
              ((page - 1) * pageSize))) ∧
    (fl.direct = true →
      (getRecords fl cache table page pageSize).totalCount
        = getTotalRecordCount fl.countOk cache table) ∧
    (0 < cache → getTotalRecordCount fl.countOk cache table = cache) ∧
    (getTotalRecordCount false 0 table = 0) ∧
    ((tco = false ∨ te = true) → ∀ S : List Row,
      fetchRows fl (table.filter (likeMatches text)) pageSize ((page - 1) * pageSize)
          = some S →
      (searchRecordsByName fl tco te table text page pageSize).totalCount
        = if fl.countOk = true then (table.filter (likeMatches text)).length
          else S.length) := by
  have hguard : ∀ h : tco = false ∨ te = true, (tco && !te) = false := by
    rintro (rfl | rfl) <;> simp
  refine ⟨rfl, ?_, ?_, ?_, ?_, ?_, ?_, ?_, ?_, ?_, rfl, ?_⟩
  · cases hf : fetchRows fl table pageSize ((page - 1) * pageSize) <;>
      simp [getRecords, hf, emptyResult]
  · rintro (hd | ⟨hd, hq⟩)
    · simp [getRecords, fetchRows, hd]
    · simp [getRecords, fetchRows, hd, hq]
  · intro hd hq hsimp
    simp [getRecords, fetchRows, hd, hq, hsimp]
  · cases htco : tco <;> cases hte : te <;>
      simp [searchRecordsByName, fetchRows, emptyResult]
  · by_cases hg : (tco && !te) = true
    · simp [searchRecordsByName, hg, emptyResult]
    · have hg' : (tco && !te) = false := by simpa using hg
      cases hf : fetchRows fl (table.filter (likeMatches text)) pageSize
          ((page - 1) * pageSize) <;>
        simp [searchRecordsByName, hg', hf, emptyResult]
  · intro hok hd
    rcases hd with hd | ⟨hd, hq⟩
    · simp [searchRecordsByName, hguard hok, fetchRows, hd]
    · simp [searchRecordsByName, hguard hok, fetchRows, hd, hq]
  · intro hok hd hq hsimp
    simp [searchRecordsByName, hguard hok, fetchRows, hd, hq, hsimp]
  · intro hd
    simp [getRecords, fetchRows, hd]
  · intro hc
    unfold getTotalRecordCount
    rw [if_pos hc]
  · intro hok S hf
    simp [searchRecordsByName, hguard hok, hf]

/-- Witness for the amended C4: with every strategy failing, both accessors
return the well-formed empty result for page 4; the simple-query fallback of
`getRecords` paginates in memory; and with the count failing on an empty
cache, `getTotalRecordCount` degrades to 0 and the search count falls back
to the fetched page's length. -/
theorem row_query_fallback_ladder_count_single_attempt_witness :
    getRecords ⟨false, false, false, true⟩ 0 tbl3 4 2 = emptyResult 4 ∧
    searchRecordsByName ⟨false, false, false, true⟩ true true tbl3 "B" 4 2
        = emptyResult 4 ∧
    (getRecords ⟨false, false, true, true⟩ 0 tbl3 1 2).records
        = normalizeRows "Record " 0 (clampSlice tbl3 2 0) ∧
    getTotalRecordCount false 0 tbl3 = 0 ∧
    (searchRecordsByName ⟨false, true, true, false⟩ false false tbl3 "a" 1 2).totalCount
        = (pagedQueryRows (tbl3.filter (likeMatches "a")) 2 0).length :=
  have h := row_query_fallback_ladder_count_single_attempt ⟨false, false, false, true⟩
    0 tbl3 "B" true true 4 2
  have h2 := row_query_fallback_ladder_count_single_attempt ⟨false, false, true, true⟩
    0 tbl3 "B" true true 1 2
  have h3 := row_query_fallback_ladder_count_single_attempt ⟨false, true, true, false⟩
    0 tbl3 "a" false false 1 2
  ⟨h.1, h.2.2.2.2.1, h2.2.2.2.1 rfl rfl rfl, h.2.2.2.2.2.2.2.2.2.2.1,
    h3.2.2.2.2.2.2.2.2.2.2.2 (Or.inl rfl) _ rfl⟩

/-- C10: every record produced by `getRecords` or `searchRecordsByName` has
all six fields populated from the fetched row: a falsy id becomes the
1-based position in the page, a falsy name becomes the generated placeholder
(`Record n` resp. `Result n`), and falsy image/origin/regNum/regDate become
the empty string — so a returned id can differ from the stored row id. -/
theorem returned_records_all_fields_defaulted
    (fl : DbFlags) (cache : Nat) (table : List Row) (page pageSize : Nat)
    (text : String) (tco te : Bool) (R S : List Row)
    (hR : fetchRows fl table pageSize ((page - 1) * pageSize) = some R)
    (hS : fetchRows fl (table.filter (likeMatches text)) pageSize ((page - 1) * pageSize)
        = some S)
    (hte : tco = false ∨ te = true) :
    ((getRecords fl cache table page pageSize).records.length = R.length ∧
     (searchRecordsByName fl tco te table text page pageSize).records.length = S.length) ∧
    (∀ (n : Nat) (r : Row), R[n]? = some r →
      (getRecords fl cache table page pageSize).records[n]? = some
        { id := match r.id with
                | some v => if v = 0 then ((n : Int) + 1) else v
                | none => ((n : Int) + 1)
          name := match r.name with
                  | some s => if s = "" then "Record " ++ toString (n + 1) else s
                  | none => "Record " ++ toString (n + 1)
          image := r.image.getD ""
          origin := r.origin.getD ""
          regNum := r.regNum.getD ""
          regDate := r.regDate.getD "" }) ∧
    (∀ (n : Nat) (r : Row), S[n]? = some r →
      (searchRecordsByName fl tco te table text page pageSize).records[n]? = some
        { id := match r.id with
                | some v => if v = 0 then ((n : Int) + 1) else v
                | none => ((n : Int) + 1)
          name := match r.name with
                  | some s => if s = "" then "Result " ++ toString (n + 1) else s
                  | none => "Result " ++ toString (n + 1)
          image := r.image.getD ""
          origin := r.origin.getD ""
          regNum := r.regNum.getD ""
          regDate := r.regDate.getD "" }) := by
  have hguard : (tco && !te) = false := by
    rcases hte with rfl | rfl <;> simp
  have hnorm : ∀ (ph : String) (n : Nat) (r : Row),
      normalizeRow ph n r =
        { id := match r.id with
                | some v => if v = 0 then ((n : Int) + 1) else v
                | none => ((n : Int) + 1)
          name := match r.name with
                  | some s => if s = "" then ph ++ toString (n + 1) else s
                  | none => ph ++ toString (n + 1)
          image := r.image.getD ""
          origin := r.origin.getD ""
          regNum := r.regNum.getD ""
          regDate := r.regDate.getD "" } := by
    intro ph n r
    unfold normalizeRow jsNumOr jsStrOr
    simp only [Record.mk.injEq]
    refine ⟨trivial, trivial, ?_, ?_, ?_, ?_⟩ <;>
      [cases hv : r.image; cases hv : r.origin; cases hv : r.regNum; cases hv : r.regDate] <;>
      first
        | rfl
        | (rename_i s; by_cases hs : s = "" <;> simp [hs])
  have hrecs : (getRecords fl cache table page pageSize).records
      = normalizeRows "Record " 0 R := by
    simp [getRecords, hR]
  have hsrecs : (searchRecordsByName fl tco te table text page pageSize).records
      = normalizeRows "Result " 0 S := by
    simp [searchRecordsByName, hguard, hS]
  refine ⟨⟨by rw [hrecs, normalizeRows_length], by rw [hsrecs, normalizeRows_length]⟩, ?_, ?_⟩
  · intro n r hn
    rw [hrecs, normalizeRows_getElem?, hn, Option.map_some', ← hnorm]
    congr 2
    omega
  · intro n r hn
    rw [hsrecs, normalizeRows_getElem?, hn, Option.map_some', ← hnorm]
    congr 2
    omega

/-- Witness for C10: a NULL-id row comes back with id 1 (its page position)
and empty defaulted columns, differing from the stored row's id. -/
theorem returned_records_all_fields_defaulted_witness :
    (getRecords ⟨true, true, true, true⟩ 0 [rowN] 1 20).records[0]?
        = some { id := 1, name := "x", image := "", origin := "", regNum := "", regDate := "" } ∧
    rowN.id = none := by
  have h := returned_records_all_fields_defaulted ⟨true, true, true, true⟩ 0 [rowN] 1 20
    "x" false false [rowN] [rowN] (by decide) (by decide) (Or.inl rfl)
  have h0 := h.2.1 0 rowN rfl
  constructor
  · rw [h0]; rfl
  · rfl

/-! ## Lemmas about the edited-item store -/

theorem fsWrite_self_mem (store : List (String × JsonItem)) (n : String) (v : JsonItem) :
    (n, v) ∈ fsWrite store n v := by
  induction store with
  | nil => exact List.mem_cons_self _ _
  | cons q rest ih =>
    rcases q with ⟨n0, c0⟩
    unfold fsWrite
    by_cases h : n0 = n
    · rw [if_pos h]; exact List.mem_cons_self _ _
    · rw [if_neg h]; exact List.mem_cons_of_mem _ ih

theorem mem_fsWrite {store : List (String × JsonItem)} {n : String} {v : JsonItem}
    {p : String × JsonItem} (h : p ∈ fsWrite store n v) : p ∈ store ∨ p = (n, v) := by
  induction store with
  | nil => simpa [fsWrite] using h
  | cons q rest ih =>
    rcases q with ⟨n0, c0⟩
    unfold fsWrite at h
    by_cases hn : n0 = n
    · rw [if_pos hn] at h
      rcases List.mem_cons.mp h with rfl | h'
      · exact Or.inr rfl
      · exact Or.inl (List.mem_cons_of_mem _ h')
    · rw [if_neg hn] at h
      rcases List.mem_cons.mp h with rfl | h'
      · exact Or.inl (List.mem_cons_self _ _)
      · rcases ih h' with h'' | h''
        · exact Or.inl (List.mem_cons_of_mem _ h'')
        · exact Or.inr h''

theorem fsGet_fsWrite (store : List (String × JsonItem)) (n : String) (v : JsonItem) :
    fsGet (fsWrite store n v) n = some v := by
  induction store with
  | nil => simp [fsWrite, fsGet]
  | cons q rest ih =>
    rcases q with ⟨n0, c0⟩
    unfold fsWrite
    by_cases hn : n0 = n
    · rw [if_pos hn]; simp [fsGet]
    · rw [if_neg hn]
      simp only [fsGet, List.find?_cons]
      have : ((n0, c0).1 == n) = false := by simpa using hn
      rw [this]
      exact ih

theorem mem_fsWrite_name_eq {store : List (String × JsonItem)} {n : String} {v : JsonItem}
    {p : String × JsonItem} (hnd : (store.map (·.1)).Nodup)
    (hp : p ∈ fsWrite store n v) (hname : p.1 = n) : p = (n, v) := by
  induction store with
  | nil => simpa [fsWrite] using hp
  | cons q rest ih =>
    rcases q with ⟨n0, c0⟩
    have hnd' : (∀ x : JsonItem, (n0, x) ∉ rest) ∧ ((rest.map (·.1)).Nodup) := by
      simpa using hnd
    unfold fsWrite at hp
    by_cases hn : n0 = n
    · rw [if_pos hn] at hp
      rcases List.mem_cons.mp hp with rfl | h'
      · rfl
      · exfalso
        rcases p with ⟨pn, pv⟩
        exact hnd'.1 pv (by rwa [show pn = n0 from hname.trans hn.symm] at h')
    · rw [if_neg hn] at hp
      rcases List.mem_cons.mp hp with rfl | h'
      · exact absurd hname hn
      · exact ih hnd'.2 h'

theorem amapGet_amapSet (m : List (Int × JsonItem)) (k : Int) (v : JsonItem) (j : Int) :
    amapGet (amapSet m k v) j = if k = j then some v else amapGet m j := by
  induction m with
  | nil =>
    by_cases h : k = j <;> simp [amapSet, amapGet, List.find?_cons, h]
  | cons q rest ih =>
    rcases q with ⟨k0, v0⟩
    unfold amapSet
    by_cases hk : k0 = k
    · rw [if_pos hk]
      by_cases hj : k = j
      · simp [amapGet, List.find?_cons, hj]
      · have : ¬ k0 = j := by rw [hk]; exact hj
        simp [amapGet, List.find?_cons, hj, this]
    · rw [if_neg hk]
      by_cases hj : k0 = j
      · have : ¬ k = j := by rw [← hj]; exact fun hh => hk hh.symm
        simp [amapGet, List.find?_cons, hj, this]
      · simp only [amapGet, List.find?_cons]
        have h0 : ((k0, v0).1 == j) = false := by simpa using hj
        rw [h0]
        exact ih

theorem mem_amapSet {m : List (Int × JsonItem)} {k : Int} {v : JsonItem}
    {p : Int × JsonItem} (h : p ∈ amapSet m k v) : p ∈ m ∨ p = (k, v) := by
  induction m with
  | nil => simpa [amapSet] using h
  | cons q rest ih =>
    rcases q with ⟨k0, v0⟩
    unfold amapSet at h
    by_cases hk : k0 = k
    · rw [if_pos hk] at h
      rcases List.mem_cons.mp h with rfl | h'
      · exact Or.inr rfl
      · exact Or.inl (List.mem_cons_of_mem _ h')
    · rw [if_neg hk] at h
      rcases List.mem_cons.mp h with rfl | h'
      · exact Or.inl (List.mem_cons_self _ _)
      · rcases ih h' with h'' | h''
        · exact Or.inl (List.mem_cons_of_mem _ h'')
        · exact Or.inr h''

theorem loadfold_keys_ne_zero (files : List (String × JsonItem))
    (acc : List (Int × JsonItem)) (hacc : ∀ p ∈ acc, p.1 ≠ 0) :
    ∀ p ∈ files.foldl loadStep acc, p.1 ≠ 0 := by
  induction files generalizing acc with
  | nil => exact hacc
  | cons f rest ih =>
    rw [List.foldl_cons]
    refine ih _ ?_
    intro p hp
    unfold loadStep at hp
    by_cases hid : f.2.id ≠ 0
    · rw [if_pos hid] at hp
      rcases mem_amapSet hp with h' | h'
      · exact hacc p h'
      · rw [h']; exact hid
    · rw [if_neg hid] at hp
      exact hacc p hp

theorem loadfold_get (k : Int) (files : List (String × JsonItem))
    (acc : List (Int × JsonItem)) :
    amapGet (files.foldl loadStep acc) k =
      match files.reverse.find? (fun f => f.2.id == k && !(k == 0)) with
      | some f => some f.2
      | none => amapGet acc k := by
  induction files generalizing acc with
  | nil => rfl
  | cons f rest ih =>
    rw [List.foldl_cons, ih, List.reverse_cons, List.find?_append]
    cases hrest : rest.reverse.find? (fun f => f.2.id == k && !(k == 0)) with
    | some g => rfl
    | none =>
      simp only [Option.none_or]
      cases hp : ((fun f : String × JsonItem => f.2.id == k && !(k == 0)) f) with
      | true =>
        have hp' : f.2.id = k ∧ ¬ k = 0 := by simpa using hp
        simp only [List.find?_cons, hp]
        unfold loadStep
        rw [if_pos (by rw [hp'.1]; exact hp'.2), hp'.1, amapGet_amapSet, if_pos rfl]
      | false =>
        simp only [List.find?_cons, hp, List.find?_nil]
        unfold loadStep
        by_cases hid : f.2.id ≠ 0
        · rw [if_pos hid, amapGet_amapSet]
          have : ¬ f.2.id = k := by
            intro hk
            rcases Bool.and_eq_false_iff.mp hp with h' | h'
            · exact absurd hk (by simpa using h')
            · have hk0 : k = 0 := by simpa using h'
              exact hid (hk.trans hk0)
          rw [if_neg this]
        · rw [if_neg hid]

theorem find?_eq_of_unique {α : Type} (p : α → Bool) (l : List α) (a : α)
    (ha : a ∈ l) (hpa : p a = true) (huniq : ∀ x ∈ l, p x = true → x = a) :
    l.find? p = some a := by
  induction l with
  | nil => cases ha
  | cons x xs ih =>
    cases hx : p x with
    | true =>
      simp only [List.find?_cons, hx]
      exact congrArg some (huniq x (List.mem_cons_self _ _) hx)
    | false =>
      simp only [List.find?_cons, hx]
      rcases List.mem_cons.mp ha with rfl | ha'
      · rw [hpa] at hx; cases hx
      · exact ih ha' (fun y hy => huniq y (List.mem_cons_of_mem _ hy))

theorem jsEndsWith_append_self (s suffix : String) :
    jsEndsWith (s ++ suffix) suffix = true := by
  unfold jsEndsWith
  rw [String.data_append, List.reverse_append]
  exact List.isPrefixOf_iff_prefix.mpr (List.prefix_append _ _)

theorem savedFileName_json (id : Int) : jsEndsWith (savedFileName id) ".json" = true :=
  jsEndsWith_append_self ("item_" ++ toString id) ".json"

theorem jsToLower_append (a b : String) :
    jsToLower (a ++ b) = jsToLower a ++ jsToLower b := by
  show String.mk ((a ++ b).data.map Char.toLower)
      = String.mk (a.data.map Char.toLower ++ b.data.map Char.toLower)
  rw [String.data_append, List.map_append]

theorem savedFileName_lower_json (id : Int) :
    jsEndsWith (jsToLower (savedFileName id)) ".json" = true := by
  unfold savedFileName
  rw [jsToLower_append ("item_" ++ toString id) ".json",
    show jsToLower ".json" = ".json" from by decide]
  exact jsEndsWith_append_self _ _

/-! ## The claims about the edited-item store -/

/-- C5 counterexample: a document with identifier `0` is persisted by
`saveEditedItem`, yet `loadAllEditedItems` returns no entry for its
identifier, so the round trip claimed for every document fails at `item0`. -/
theorem save_loadAll_roundtrip_cex :
    fsGet (saveEditedItem [] item0 "2024-03-01T00:00:00Z").1 (savedFileName item0.id)
        = some (saveEditedItem [] item0 "2024-03-01T00:00:00Z").2 ∧
    amapGet (loadAllEditedItems (some (saveEditedItem [] item0 "2024-03-01T00:00:00Z").1))
        item0.id = none := by
  decide

/-- C5 (amended to nonzero identifiers): for a document whose identifier is
truthy and a store whose files follow the `item_<id>.json` naming of
`saveEditedItem` (with no duplicate filenames), saving and then loading all
edited items yields exactly the saved document under its identifier — in
particular with the `mainRegisters` current amounts exactly as saved. -/
theorem saveEditedItem_loadAll_roundtrip (store : List (String × JsonItem))
    (item : JsonItem) (now : String)
    (hid : item.id ≠ 0)
    (hnames : (store.map (·.1)).Nodup)
    (hwf : ∀ p ∈ store, p.1 = savedFileName p.2.id) :
    amapGet (loadAllEditedItems (some (saveEditedItem store item now).1)) item.id
        = some (saveEditedItem store item now).2 ∧
    (saveEditedItem store item now).2.mainRegisters = item.mainRegisters := by
  refine ⟨?_, rfl⟩
  set u : JsonItem := (saveEditedItem store item now).2 with hu
  have hustore : (saveEditedItem store item now).1
      = fsWrite store (savedFileName item.id) u := rfl
  have huid : u.id = item.id := rfl
  have huniq : ∀ q ∈ fsWrite store (savedFileName item.id) u,
      q.2.id = item.id → q = (savedFileName item.id, u) := by
    intro q hq hqid
    rcases mem_fsWrite hq with hq' | hq'
    · exact mem_fsWrite_name_eq hnames hq ((hwf q hq').trans (by rw [hqid]))
    · exact hq'
  rw [hustore]
  unfold loadAllEditedItems
  rw [loadfold_get]
  have hfind : ((fsWrite store (savedFileName item.id) u).filter
        (fun f => jsEndsWith (jsToLower f.1) ".json")).reverse.find?
        (fun f => f.2.id == item.id && !(item.id == 0))
      = some (savedFileName item.id, u) := by
    refine find?_eq_of_unique _ _ _ ?_ ?_ ?_
    · rw [List.mem_reverse, List.mem_filter]
      exact ⟨fsWrite_self_mem store _ u, savedFileName_lower_json item.id⟩
    · simp [huid, hid]
    · intro x hx hpx
      have hx' := (List.mem_filter.mp (List.mem_reverse.mp hx)).1
      have hxid : x.2.id = item.id := by
        rcases Bool.and_eq_true_iff.mp hpx with ⟨h1, _⟩
        simpa using h1
      exact huniq x hx' hxid
  rw [hfind]

/-- Witness for the amended C5 at the empty store and document `item3`. -/
theorem saveEditedItem_loadAll_roundtrip_witness :
    amapGet (loadAllEditedItems (some (saveEditedItem [] item3 "t").1)) item3.id
        = some (saveEditedItem [] item3 "t").2 ∧
    (saveEditedItem [] item3 "t").2.mainRegisters = item3.mainRegisters :=
  saveEditedItem_loadAll_roundtrip [] item3 "t" (by decide) (by decide) (by decide)

/-- C7 counterexample: a store file whose name does not end in the
lower-case `.json` (here `ITEM_3.JSON`) survives `resetAllSavedItems`
untouched — and `loadAllEditedItems` still returns its document afterwards —
so the operation does not delete every file in the directory. -/
theorem resetAllSavedItems_misses_file_cex :
    (resetAllSavedItems (some [("ITEM_3.JSON", item3)])).1
        = some [("ITEM_3.JSON", item3)] ∧
    loadAllEditedItems (resetAllSavedItems (some [("ITEM_3.JSON", item3)])).1 ≠ [] := by
  decide

/-- C7 (amended to the files the code matches): `resetAllSavedItems` always
reports success, is a no-op on an absent or empty directory, and deletes
exactly the files whose name ends in `.json` (case-sensitively) — which
covers every file `saveEditedItem` creates, since `item_<id>.json` ends in
`.json`. -/
theorem resetAllSavedItems_deletes_json_files
    (dir : Option (List (String × JsonItem))) (files : List (String × JsonItem))
    (id : Int) :
    (resetAllSavedItems dir).2 = true ∧
    resetAllSavedItems none = (none, true) ∧
    resetAllSavedItems (some []) = (some [], true) ∧
    (resetAllSavedItems (some files)).1
        = some (files.filter (fun f => !(jsEndsWith f.1 ".json"))) ∧
    (∀ f ∈ files, jsEndsWith f.1 ".json" = true →
      f ∉ files.filter (fun f => !(jsEndsWith f.1 ".json"))) ∧
    jsEndsWith (savedFileName id) ".json" = true := by
  refine ⟨?_, rfl, rfl, rfl, ?_, savedFileName_json id⟩
  · cases dir <;> rfl
  · intro f hf hjson hmem
    have hkeep := (List.mem_filter.mp hmem).2
    rw [hjson] at hkeep
    cases hkeep

/-- Witness for the amended C7: resetting a directory holding one saved file
empties it, the saved filename matching the deleted pattern. -/
theorem resetAllSavedItems_deletes_json_files_witness :
    (resetAllSavedItems (some [(savedFileName 3, item3)])).1 = some [] ∧
    (savedFileName 3, item3)
        ∉ [(savedFileName 3, item3)].filter (fun f => !(jsEndsWith f.1 ".json")) ∧
    (resetAllSavedItems none).2 = true := by
  have h := resetAllSavedItems_deletes_json_files (some [(savedFileName 3, item3)])
    [(savedFileName 3, item3)] 3
  have hnone := resetAllSavedItems_deletes_json_files none [] 0
  refine ⟨?_, ?_, ?_⟩
  · rw [h.2.2.2.1]; decide
  · exact h.2.2.2.2.1 (savedFileName 3, item3) (by decide) (by decide)
  · exact hnone.1

/-- C8: the map returned by `loadAllEditedItems` never carries a falsy
(zero) identifier — the lookup at 0 is empty and every key is nonzero — even
though `saveEditedItem` does persist a document whose identifier is 0 to its
`item_0.json` file. -/
theorem loadAllEditedItems_omits_falsy_ids (dir : Option (List (String × JsonItem)))
    (store : List (String × JsonItem)) (item : JsonItem) (now : String)
    (hid : item.id = 0) :
    (∀ p ∈ loadAllEditedItems dir, p.1 ≠ 0) ∧
    amapGet (loadAllEditedItems dir) 0 = none ∧
    fsGet (saveEditedItem store item now).1 (savedFileName item.id)
        = some (saveEditedItem store item now).2 := by
  have hkeys : ∀ p ∈ loadAllEditedItems dir, p.1 ≠ 0 := by
    cases dir with
    | none => intro p hp; cases hp
    | some files =>
      exact loadfold_keys_ne_zero _ [] (fun p hp => by cases hp)
  refine ⟨hkeys, ?_, fsGet_fsWrite store _ _⟩
  unfold amapGet
  cases hfind : (loadAllEditedItems dir).find? (fun p => p.1 == 0) with
  | none => rfl
  | some p =>
    exfalso
    have hp0 : p.1 = 0 := by simpa using List.find?_some hfind
    exact hkeys p (List.mem_of_find?_eq_some hfind) hp0

/-- Witness for C8: a directory holding files for ids 0 and 3 loads to a map
with no entry at 0, while saving `item0` (id 0) does create its store file. -/
theorem loadAllEditedItems_omits_falsy_ids_witness :
    amapGet (loadAllEditedItems (some [("a.json", item0), ("b.json", item3)])) 0 = none ∧
    fsGet (saveEditedItem [] item0 "t").1 (savedFileName item0.id)
        = some (saveEditedItem [] item0 "t").2 :=
  have h := loadAllEditedItems_omits_falsy_ids (some [("a.json", item0), ("b.json", item3)])
    [] item0 "t" (by decide)
  ⟨h.2.1, h.2.2⟩

/-- C9: `saveEditedItem` returns the input document changed only in its
`editStatus`: the six data fields are untouched, and the new status keeps
the prior exported flag, export timestamp and path, while setting
`saved := true` and the fresh `lastSaved` stamp. -/
theorem saveEditedItem_frame (store : List (String × JsonItem)) (item : JsonItem)
    (now : String) :
    (saveEditedItem store item now).2.id = item.id ∧
    (saveEditedItem store item now).2.fullInvoiceName = item.fullInvoiceName ∧
    (saveEditedItem store item now).2.objCompany = item.objCompany ∧
    (saveEditedItem store item now).2.censoredDt = item.censoredDt ∧
    (saveEditedItem store item now).2.updatedDt = item.updatedDt ∧
    (saveEditedItem store item now).2.mainRegisters = item.mainRegisters ∧
    (saveEditedItem store item now).2.editStatus = some
      { saved := true
        exported := (item.editStatus.map (·.exported)).getD false
        lastSaved := some now
        lastExported := item.editStatus.bind (·.lastExported)
        exportPath := item.editStatus.bind (·.exportPath) } := by
  refine ⟨rfl, rfl, rfl, rfl, rfl, rfl, ?_⟩
  cases h : item.editStatus with
  | none => simp [saveEditedItem, stampSaved, h]
  | some st => simp [saveEditedItem, stampSaved, h]

end Brand
